import Mathlib

/-
Verification of the segment-chain resolver and light-time solver of
`skyfield/ephemerislib.py`.

The embedding is shallow: Python floats become exact reals, a numpy
3-vector becomes `ℝ × ℝ × ℝ`, a `JulianDate` becomes its `tdb` real
coordinate, and a segment's `compute` function becomes `ℝ → Vec3 × Vec3`.
The unbounded `while` loop of `_center` is modelled with an explicit fuel
argument: a result of `none` at every fuel means the Python generator
never terminates.  Exceptions become explicit `Except`/`Option` results.
-/

namespace Ephemerislib

/-- A numpy 3-vector of floats, modelled as an exact real triple. -/
abbrev Vec3 : Type := ℝ × ℝ × ℝ

/-- `Segment = namedtuple('Segment', 'center target compute')`. -/
structure Segment where
  center : Int
  target : Int
  compute : ℝ → Vec3 × Vec3

/-- The `Body` class: it keeps the ephemeris segment collection and a code. -/
structure Body where
  segments : List Segment
  code : Int

/-- The `Barycentric(pos, vel, jd)` result returned by `Body.at`. -/
structure Barycentric where
  pos : Vec3
  vel : Vec3
  jd : ℝ

/-- The Python exceptions that the chain facade can raise:
`IndexError` from `center_chain[0]` on an empty chain, and the
`ValueError` complaining about a missing common (barycentric) center. -/
inductive PyErr where
  | indexError
  | noCommonCenter

/-- The `Solution` value object: codes plus the two full root-to-body chains. -/
structure Solution where
  center : Int
  target : Int
  center_chain : List Segment
  target_chain : List Segment

/-- Classification of a `Solution.at` result: `Barycentric` when the center
code is 0, `Astrometric` otherwise. -/
inductive PosKind where
  | barycentric
  | astrometric

/-- The observable content of the position object built by `Solution.at`:
the relative position/velocity, the time, the resolved light-time, and the
observer's own barycentric position/velocity attached to the result. -/
structure SolRes where
  kind : PosKind
  pos : Vec3
  vel : Vec3
  jd : ℝ
  lighttime : ℝ
  observerPos : Vec3
  observerVel : Vec3

/-- `dict((segment.target, segment) for segment in segments)` looked up at
`code`: the Python dict comprehension lets a later duplicate target
overwrite an earlier one, so the lookup finds the last matching segment. -/
def lookupSeg (segs : List Segment) (code : Int) : Option Segment :=
  segs.reverse.find? fun s => s.target == code

/-- The generator `_center(code, segment_dict)`: follow segments from target
to center, yielding each segment, until the code has no entry.  The Python
loop is unbounded; `fuel` makes it total, with `none` meaning the walk has
not finished within `fuel` lookups (so `none` at every fuel is an infinite
loop). -/
def centerWalk (segs : List Segment) : Int → Nat → Option (List Segment)
  | code, 0 =>
    match lookupSeg segs code with
    | none => some []
    | some _ => none
  | code, fuel + 1 =>
    match lookupSeg segs code with
    | none => some []
    | some seg => (centerWalk segs seg.center fuel).map fun l => seg :: l

/-- `list(_center(code, segment_dict))[::-1]`: the root-to-body chain. -/
def chainOf (segs : List Segment) (code : Int) (fuel : Nat) : Option (List Segment) :=
  (centerWalk segs code fuel).map List.reverse

/-- `_tally(minus_chain, plus_chain, jd)`: subtract every minus-chain
segment's computed (position, velocity), then add every plus-chain one. -/
def tally (minus_chain plus_chain : List Segment) (jd : ℝ) : Vec3 × Vec3 :=
  let m := minus_chain.foldl (fun acc seg => acc - seg.compute jd) 0
  plus_chain.foldl (fun acc seg => acc + seg.compute jd) m

/-- `Body.at(jd)`: resolve the full chain of the body's code and tally it as
a pure plus chain into a `Barycentric` result. -/
def bodyAt (b : Body) (jd : ℝ) (fuel : Nat) : Option Barycentric :=
  (chainOf b.segments b.code fuel).map fun chain =>
    ⟨(tally [] chain jd).1, (tally [] chain jd).2, jd⟩

/-- `Body.observe(body)`: merge the two segment collections, resolve both
full chains, require both rootmost centers to be the barycenter 0
(`center_chain[0].center == target_chain[0].center == 0`), and build a
`Solution`.  Indexing an empty chain is an `IndexError`; a failing check is
the `ValueError` modelled as `noCommonCenter`.  The outer `none` means one
of the chain walks never terminated. -/
def observe (self other : Body) (fuel : Nat) : Option (Except PyErr Solution) :=
  let segments := self.segments ++ other.segments
  match chainOf segments self.code fuel, chainOf segments other.code fuel with
  | some center_chain, some target_chain =>
    some (match center_chain.head?, target_chain.head? with
      | some c0, some t0 =>
        if c0.center = t0.center ∧ t0.center = 0 then
          Except.ok ⟨self.code, other.code, center_chain, target_chain⟩
        else
          Except.error PyErr.noCommonCenter
      | _, _ => Except.error PyErr.indexError)
  | _, _ => none

/-- `_connect(body1, body2)`: resolve both chains over the merged segment
collection, require a shared rootmost center, count the zip positions with
equal targets, and drop that many segments from both chains. -/
def connect (body1 body2 : Body) (fuel : Nat) :
    Option (Except PyErr (List Segment × List Segment)) :=
  let every := body1.segments ++ body2.segments
  match chainOf every body1.code fuel, chainOf every body2.code fuel with
  | some segments1, some segments2 =>
    some (match segments1.head?, segments2.head? with
      | some s1, some s2 =>
        if s1.center ≠ s2.center then
          Except.error PyErr.noCommonCenter
        else
          let i := (segments1.zip segments2).countP fun p => p.1.target == p.2.target
          Except.ok (segments1.drop i, segments2.drop i)
      | _, _ => Except.error PyErr.indexError)
  | _, _ => none

/-- Modelled from the spec: the speed-of-light constant `C_AUDAY`
(astronomical units per day) imported from the `constants` collaborator,
which is not part of the shown source. -/
noncomputable def C_AUDAY : ℝ := 1731446326846693 / 10 ^ 13

/-- Modelled from the spec: `length_of` from the `functions` collaborator
(not part of the shown source), the Euclidean norm of a 3-vector. -/
noncomputable def length_of (v : Vec3) : ℝ :=
  Real.sqrt (v.1 ^ 2 + v.2.1 ^ 2 + v.2.2 ^ 2)

/-- The `for i in range(10)` loop of `Solution.at`, one recursive step per
pass: compute `lighttime = distance / C_AUDAY`; accept when the change from
`lighttime0` is within `1e-12`; otherwise re-evaluate the target chain at
`jd_tdb - lighttime` and continue.  `none` models the `else:` clause of the
`for`, i.e. the `ValueError` raised on divergence. -/
noncomputable def solutionLoop (tchain : List Segment) (cpos : Vec3) (jd_tdb : ℝ) :
    Vec3 × Vec3 → ℝ → ℝ → Nat → Option ((Vec3 × Vec3) × ℝ)
  | _, _, _, 0 => none
  | tpv, distance, lighttime0, n + 1 =>
    let lighttime := distance / C_AUDAY
    if -(1 / 10 ^ 12 : ℝ) < lighttime - lighttime0 ∧ lighttime - lighttime0 < (1 / 10 ^ 12 : ℝ) then
      some (tpv, lighttime)
    else
      let pv := tally [] tchain (jd_tdb - lighttime)
      solutionLoop tchain cpos jd_tdb pv (length_of (pv.1 - cpos)) lighttime n

/-- `Solution.at(jd)`: tally both chains at the nominal time, iterate the
light-time correction on the target chain only, and package the result with
the observer's nominal-time position and velocity. -/
noncomputable def solutionAt (s : Solution) (jd : ℝ) : Option SolRes :=
  let cpv := tally [] s.center_chain jd
  let tpv := tally [] s.target_chain jd
  let distance := length_of (tpv.1 - cpv.1)
  (solutionLoop s.target_chain cpv.1 jd tpv distance 0 10).map fun r =>
    ⟨if s.center = 0 then PosKind.barycentric else PosKind.astrometric,
      r.1.1 - cpv.1, r.1.2 - cpv.2, jd, r.2, cpv.1, cpv.2⟩

/-- The virtual state of the light-time iteration after `k` updates,
ignoring the convergence break: the current target (position, velocity),
the current distance, and the previous light-time estimate. -/
noncomputable def ltState (tchain : List Segment) (cpos : Vec3) (jd : ℝ) :
    Nat → (Vec3 × Vec3) × ℝ × ℝ
  | 0 =>
    (tally [] tchain jd, length_of ((tally [] tchain jd).1 - cpos), 0)
  | k + 1 =>
    let prev := ltState tchain cpos jd k
    let lighttime := prev.2.1 / C_AUDAY
    let pv := tally [] tchain (jd - lighttime)
    (pv, length_of (pv.1 - cpos), lighttime)

/-- The convergence-test quantity `lighttime - lighttime0` of pass `k`. -/
noncomputable def ltDelta (tchain : List Segment) (cpos : Vec3) (jd : ℝ) (k : Nat) : ℝ :=
  (ltState tchain cpos jd k).2.1 / C_AUDAY - (ltState tchain cpos jd k).2.2

/-- Pass `k` of the light-time iteration satisfies the convergence test
`-1e-12 < lighttime - lighttime0 < 1e-12`. -/
def ltAccept (tchain : List Segment) (cpos : Vec3) (jd : ℝ) (k : Nat) : Prop :=
  -(1 / 10 ^ 12 : ℝ) < ltDelta tchain cpos jd k ∧ ltDelta tchain cpos jd k < (1 / 10 ^ 12 : ℝ)

/-- The separation of target and center as first computed by `Solution.at`
at the nominal time. -/
noncomputable def initialDistance (s : Solution) (jd : ℝ) : ℝ :=
  length_of ((tally [] s.target_chain jd).1 - (tally [] s.center_chain jd).1)

/-- Chain resolution from `code` never terminates: the `while` loop of
`_center` runs forever, producing no chain at any lookup bound. -/
def resolutionDiverges (segs : List Segment) (code : Int) : Prop :=
  ∀ fuel, chainOf segs code fuel = none

/-- Every segment of the chain is what the registry returns for its target. -/
def Registered (segs : List Segment) (c : List Segment) : Prop :=
  ∀ s ∈ c, lookupSeg segs s.target = some s

/-- A root-to-body chain anchored at code `p`: the first segment's center is
`p` and every later segment's center is its predecessor's target. -/
def LinkedFrom (p : Int) : List Segment → Prop
  | [] => True
  | s :: rest => s.center = p ∧ LinkedFrom s.target rest

/-- The body code a root-to-body chain ends at (its anchor if empty). -/
def chainEnd (p : Int) : List Segment → Int
  | [] => p
  | s :: rest => chainEnd s.target rest

/-- Every segment of the chain computes the same value at every time. -/
def Stationary (c : List Segment) : Prop :=
  ∀ s ∈ c, ∀ t₁ t₂ : ℝ, s.compute t₁ = s.compute t₂

/-- Segment S1 of the spec's concrete scenario. -/
def segS1 : Segment := ⟨0, 3, fun t => ((t, 0, 0), (1, 0, 0))⟩

/-- Segment S2 of the spec's concrete scenario. -/
def segS2 : Segment := ⟨3, 399, fun _ => ((0, 1, 0), (0, 0, 0))⟩

/-- A second child of body 3, used to exercise the common-ancestor pruning. -/
def segS3 : Segment := ⟨3, 301, fun t => ((0, 0, t), (0, 0, 1))⟩

/-- One half of a two-segment cycle: 2 → 1. -/
def cycA : Segment := ⟨2, 1, fun _ => 0⟩

/-- The other half of the cycle: 1 → 2. -/
def cycB : Segment := ⟨1, 2, fun _ => 0⟩

/-- A stationary target segment at distance 5 from the origin. -/
def statSeg : Segment := ⟨0, 5, fun _ => ((3, 4, 0), 0)⟩

/-- A stationary solution observing `statSeg` from an empty center chain. -/
def statSol : Solution := ⟨0, 5, [], [statSeg]⟩

/-- A stationary target segment at a separation below `1e-12 * C_AUDAY`. -/
noncomputable def tinySeg : Segment := ⟨0, 5, fun _ => ((1 / 10 ^ 10, 0, 0), 0)⟩

/-- A stationary solution at tiny (but positive) separation. -/
noncomputable def tinySol : Solution := ⟨0, 5, [], [tinySeg]⟩

/-- A center segment computing the constant position (1,0,0). -/
def cSegConst : Segment := ⟨0, 10, fun _ => ((1, 0, 0), 0)⟩

/-- A center segment computing position (1+t,0,0): it agrees with
`cSegConst` at time 0 but nowhere else. -/
def cSegDrift : Segment := ⟨0, 10, fun t => ((1 + t, 0, 0), 0)⟩

/-- A solution whose center chain is `[cSegConst]`. -/
def solConst : Solution := ⟨0, 5, [cSegConst], [statSeg]⟩

/-- The same solution with center chain `[cSegDrift]` instead. -/
def solDrift : Solution := ⟨0, 5, [cSegDrift], [statSeg]⟩

theorem foldl_add_eq (t : ℝ) (l : List Segment) : ∀ x : Vec3 × Vec3,
    l.foldl (fun acc seg => acc + seg.compute t) x
      = x + (l.map fun s => s.compute t).sum := by
  induction l with
  | nil => intro x; simp
  | cons s l ih =>
    intro x
    simp only [List.foldl_cons, List.map_cons, List.sum_cons]
    rw [ih, add_assoc]

theorem foldl_sub_eq (t : ℝ) (l : List Segment) : ∀ x : Vec3 × Vec3,
    l.foldl (fun acc seg => acc - seg.compute t) x
      = x - (l.map fun s => s.compute t).sum := by
  induction l with
  | nil => intro x; simp
  | cons s l ih =>
    intro x
    simp only [List.foldl_cons, List.map_cons, List.sum_cons]
    rw [ih, sub_sub]

theorem tally_eq (m p : List Segment) (t : ℝ) :
    tally m p t
      = (p.map fun s => s.compute t).sum - (m.map fun s => s.compute t).sum := by
  unfold tally
  rw [foldl_add_eq, foldl_sub_eq]
  abel

/-- C3: tallying a concatenation of chains equals the vector sum of tallying
the parts, componentwise for position and velocity, both when the
concatenated chain plays the plus role and when it plays the minus role. -/
theorem tallyLinear (chainA chainB : List Segment) (t : ℝ) :
    tally [] (chainA ++ chainB) t = tally [] chainA t + tally [] chainB t ∧
    tally (chainA ++ chainB) [] t = tally chainA [] t + tally chainB [] t := by
  refine ⟨?_, ?_⟩ <;>
    · simp only [tally_eq, List.map_append, List.sum_append, List.map_nil, List.sum_nil]
      abel

theorem lookupSeg_target {segs : List Segment} {code : Int} {s : Segment}
    (h : lookupSeg segs code = some s) : s.target = code := by
  unfold lookupSeg at h
  have := List.find?_some h
  simpa using this

theorem lookupSeg_mem {segs : List Segment} {code : Int} {s : Segment}
    (h : lookupSeg segs code = some s) : s ∈ segs := by
  unfold lookupSeg at h
  have := List.mem_of_find?_eq_some h
  simpa using this

theorem centerWalk_none_lookup {segs : List Segment} {code : Int}
    (h : lookupSeg segs code = none) (fuel : Nat) :
    centerWalk segs code fuel = some [] := by
  cases fuel <;> simp [centerWalk, h]

theorem centerWalk_inv {segs : List Segment} {code : Int} {fuel : Nat} {l : List Segment}
    (h : centerWalk segs code fuel = some l) :
    (lookupSeg segs code = none ∧ l = []) ∨
    (∃ seg rest g, fuel = g + 1 ∧ lookupSeg segs code = some seg ∧
      centerWalk segs seg.center g = some rest ∧ l = seg :: rest) := by
  cases fuel with
  | zero =>
    cases hl : lookupSeg segs code <;> simp [centerWalk, hl] at h
    exact Or.inl ⟨rfl, h⟩
  | succ g =>
    cases hl : lookupSeg segs code with
    | none =>
      simp [centerWalk, hl] at h
      exact Or.inl ⟨rfl, h⟩
    | some seg =>
      simp only [centerWalk, hl, Option.map_eq_some'] at h
      obtain ⟨rest, hrest, hcons⟩ := h
      exact Or.inr ⟨seg, rest, g, rfl, rfl, hrest, hcons.symm⟩

theorem centerWalk_registered {segs : List Segment} :
    ∀ {fuel : Nat} {code : Int} {l : List Segment},
      centerWalk segs code fuel = some l →
        ∀ s ∈ l, lookupSeg segs s.target = some s := by
  intro fuel
  induction fuel with
  | zero =>
    intro code l h s hs
    rcases centerWalk_inv h with ⟨-, rfl⟩ | ⟨seg, rest, g, hg, -, -, -⟩
    · cases hs
    · cases hg
  | succ fuel ih =>
    intro code l h s hs
    rcases centerWalk_inv h with ⟨-, rfl⟩ | ⟨seg, rest, g, hg, hl, hrest, rfl⟩
    · cases hs
    · have hg' : g = fuel := by omega
      subst hg'
      rcases List.mem_cons.mp hs with rfl | hs'
      · rwa [lookupSeg_target hl]
      · exact ih hrest s hs'

theorem centerWalk_det {segs : List Segment} :
    ∀ {fuel : Nat} {fuel' : Nat} {code : Int} {l l' : List Segment},
      centerWalk segs code fuel = some l → centerWalk segs code fuel' = some l' →
        l = l' := by
  intro fuel
  induction fuel with
  | zero =>
    intro fuel' code l l' h h'
    rcases centerWalk_inv h with ⟨hl, rfl⟩ | ⟨seg, rest, g, hg, -, -, -⟩
    · rw [centerWalk_none_lookup hl fuel'] at h'
      exact Option.some_inj.mp h'
    · cases hg
  | succ fuel ih =>
    intro fuel' code l l' h h'
    rcases centerWalk_inv h with ⟨hl, rfl⟩ | ⟨seg, rest, g, hg, hl, hrest, rfl⟩
    · rw [centerWalk_none_lookup hl fuel'] at h'
      exact Option.some_inj.mp h'
    · have hg' : g = fuel := by omega
      subst hg'
      rcases centerWalk_inv h' with ⟨hl', -⟩ | ⟨seg', rest', g', hg2, hl', hrest', rfl⟩
      · rw [hl] at hl'; cases hl'
      · rw [hl] at hl'
        have hseg : seg = seg' := Option.some_inj.mp hl'
        subst hseg
        rw [ih hrest hrest']

theorem centerWalk_mono {segs : List Segment} :
    ∀ {l : List Segment} {code : Int} {fuel fuel' : Nat},
      centerWalk segs code fuel = some l → l.length ≤ fuel' →
        centerWalk segs code fuel' = some l := by
  intro l
  induction l with
  | nil =>
    intro code fuel fuel' h hlen
    rcases centerWalk_inv h with ⟨hl, -⟩ | ⟨seg, rest, g, hg, hl, hrest, hcons⟩
    · exact centerWalk_none_lookup hl fuel'
    · cases hcons
  | cons s rest ih =>
    intro code fuel fuel' h hlen
    rcases centerWalk_inv h with ⟨-, hnil⟩ | ⟨seg, rest', g, hg, hl, hrest, hcons⟩
    · cases hnil
    · injection hcons with h1 h2
      subst h1
      subst h2
      cases fuel' with
      | zero => simp at hlen
      | succ g' =>
        have hlen' : rest.length ≤ g' := by
          simp only [List.length_cons] at hlen
          omega
        have hw : centerWalk segs s.center g' = some rest := ih hrest hlen'
        simp [centerWalk, hl, hw]

theorem centerWalk_decompose {segs : List Segment} :
    ∀ {l₁ : List Segment} {code : Int} {fuel : Nat} {s : Segment} {l₂ : List Segment},
      centerWalk segs code fuel = some (l₁ ++ s :: l₂) →
        ∃ g, centerWalk segs s.center g = some l₂ := by
  intro l₁
  induction l₁ with
  | nil =>
    intro code fuel s l₂ h
    rcases centerWalk_inv h with ⟨-, hnil⟩ | ⟨seg, rest, g, -, -, hrest, hcons⟩
    · cases hnil
    · simp only [List.nil_append] at hcons
      injection hcons with h1 h2
      subst h1
      subst h2
      exact ⟨g, hrest⟩
  | cons x l₁ ih =>
    intro code fuel s l₂ h
    rcases centerWalk_inv h with ⟨-, hnil⟩ | ⟨seg, rest, g, -, -, hrest, hcons⟩
    · cases hnil
    · simp only [List.cons_append] at hcons
      injection hcons with h1 h2
      subst h1
      subst h2
      exact ih hrest

theorem centerWalk_nodup {segs : List Segment} :
    ∀ {fuel : Nat} {code : Int} {l : List Segment},
      centerWalk segs code fuel = some l →
        (l.map fun s => s.target).Nodup := by
  intro fuel
  induction fuel with
  | zero =>
    intro code l h
    rcases centerWalk_inv h with ⟨-, rfl⟩ | ⟨seg, rest, g, hg, -, -, -⟩
    · simp
    · cases hg
  | succ fuel ih =>
    intro code l h
    rcases centerWalk_inv h with ⟨-, rfl⟩ | ⟨seg, rest, g, hg, hl, hrest, rfl⟩
    · simp
    · have hg' : g = fuel := by omega
      subst hg'
      refine List.nodup_cons.mpr ⟨?_, ih hrest⟩
      intro hmem
      obtain ⟨s', hs', htgt⟩ := List.mem_map.mp hmem
      have htgt' : s'.target = seg.target := htgt
      have hreg : lookupSeg segs s'.target = some s' := centerWalk_registered hrest s' hs'
      have hcode : seg.target = code := lookupSeg_target hl
      rw [htgt', hcode, hl] at hreg
      have hseg : s' = seg := (Option.some_inj.mp hreg).symm
      subst hseg
      obtain ⟨r1, r2, hsplit⟩ := List.append_of_mem hs'
      rw [hsplit] at hrest
      obtain ⟨g', hg'⟩ := centerWalk_decompose hrest
      have hsame : r1 ++ s' :: r2 = r2 := centerWalk_det hrest hg'
      have hlen := congrArg List.length hsame
      simp at hlen
      omega

theorem centerWalk_length_le {segs : List Segment} {code : Int} {fuel : Nat}
    {l : List Segment} (h : centerWalk segs code fuel = some l) :
    l.length ≤ segs.length := by
  have hnodup := centerWalk_nodup h
  have hsub : (l.map fun s => s.target) ⊆ segs.map fun s => s.target := by
    intro x hx
    obtain ⟨s, hs, rfl⟩ := List.mem_map.mp hx
    exact List.mem_map.mpr ⟨s, lookupSeg_mem (centerWalk_registered h s hs), rfl⟩
  have := (hnodup.subperm hsub).length_le
  simpa using this

theorem chainEnd_append (s : Segment) :
    ∀ (c : List Segment) (p : Int), chainEnd p (c ++ [s]) = s.target := by
  intro c
  induction c with
  | nil => intro p; rfl
  | cons x c ih => intro p; exact ih x.target

theorem linkedFrom_append (s : Segment) :
    ∀ (c : List Segment) (p : Int),
      LinkedFrom p c → s.center = chainEnd p c → LinkedFrom p (c ++ [s]) := by
  intro c
  induction c with
  | nil => intro p _ h; exact ⟨h, trivial⟩
  | cons x c ih => intro p hl hend; exact ⟨hl.1, ih x.target hl.2 hend⟩

theorem centerWalk_linked {segs : List Segment} :
    ∀ {fuel : Nat} {code : Int} {l : List Segment},
      centerWalk segs code fuel = some l →
        ∃ r, LinkedFrom r l.reverse ∧ chainEnd r l.reverse = code ∧
          lookupSeg segs r = none := by
  intro fuel
  induction fuel with
  | zero =>
    intro code l h
    rcases centerWalk_inv h with ⟨hl, rfl⟩ | ⟨seg, rest, g, hg, -, -, -⟩
    · exact ⟨code, trivial, rfl, hl⟩
    · cases hg
  | succ fuel ih =>
    intro code l h
    rcases centerWalk_inv h with ⟨hl, rfl⟩ | ⟨seg, rest, g, hg, hl, hrest, rfl⟩
    · exact ⟨code, trivial, rfl, hl⟩
    · have hg' : g = fuel := by omega
      subst hg'
      obtain ⟨r, hlf, hend, hnone⟩ := ih hrest
      refine ⟨r, ?_, ?_, hnone⟩
      · simpa using linkedFrom_append seg rest.reverse r hlf hend.symm
      · have : (seg :: rest).reverse = rest.reverse ++ [seg] := by simp
        rw [this, chainEnd_append, lookupSeg_target hl]

theorem chainOf_registered {segs : List Segment} {code : Int} {fuel : Nat}
    {c : List Segment} (h : chainOf segs code fuel = some c) :
    Registered segs c := by
  unfold chainOf at h
  obtain ⟨l, hl, rfl⟩ := Option.map_eq_some'.mp h
  intro s hs
  exact centerWalk_registered hl s (List.mem_reverse.mp hs)

theorem chainOf_linked {segs : List Segment} {code : Int} {fuel : Nat}
    {c : List Segment} (h : chainOf segs code fuel = some c) :
    ∃ r, LinkedFrom r c := by
  unfold chainOf at h
  obtain ⟨l, hl, rfl⟩ := Option.map_eq_some'.mp h
  obtain ⟨r, hlf, -, -⟩ := centerWalk_linked hl
  exact ⟨r, hlf⟩

theorem countP_zip_zero {segs : List Segment} :
    ∀ (ca cb : List Segment) (pa pb : Int), pa ≠ pb →
      Registered segs ca → Registered segs cb →
      LinkedFrom pa ca → LinkedFrom pb cb →
      (ca.zip cb).countP (fun p => p.1.target == p.2.target) = 0 := by
  intro ca
  induction ca with
  | nil => intro cb pa pb _ _ _ _ _; simp
  | cons s1 ca ih =>
    intro cb pa pb hne hra hrb hla hlb
    cases cb with
    | nil => simp
    | cons s2 cb =>
      have hne' : s1.target ≠ s2.target := by
        intro he
        have e1 : lookupSeg segs s1.target = some s1 := hra s1 (by simp)
        have e2 : lookupSeg segs s2.target = some s2 := hrb s2 (by simp)
        rw [he, e2] at e1
        have hs : s2 = s1 := Option.some_inj.mp e1
        apply hne
        rw [← hla.1, ← hlb.1, hs]
      have h0 := ih cb s1.target s2.target hne'
        (fun s hs => hra s (by simp [hs])) (fun s hs => hrb s (by simp [hs]))
        hla.2 hlb.2
      simp [List.zip_cons_cons, List.countP_cons, beq_iff_eq, hne', h0]

theorem zip_take_eq {segs : List Segment} :
    ∀ (ca cb : List Segment) (pa pb : Int),
      Registered segs ca → Registered segs cb →
      LinkedFrom pa ca → LinkedFrom pb cb →
      ca.take ((ca.zip cb).countP fun p => p.1.target == p.2.target)
        = cb.take ((ca.zip cb).countP fun p => p.1.target == p.2.target) := by
  intro ca
  induction ca with
  | nil => intro cb pa pb _ _ _ _; simp
  | cons s1 ca ih =>
    intro cb pa pb hra hrb hla hlb
    cases cb with
    | nil => simp
    | cons s2 cb =>
      by_cases he : s1.target = s2.target
      · have e1 : lookupSeg segs s1.target = some s1 := hra s1 (by simp)
        have e2 : lookupSeg segs s2.target = some s2 := hrb s2 (by simp)
        rw [he, e2] at e1
        have hs : s2 = s1 := Option.some_inj.mp e1
        subst hs
        have htail := ih cb s2.target s2.target
          (fun s hs => hra s (by simp [hs])) (fun s hs => hrb s (by simp [hs]))
          hla.2 hlb.2
        simp only [List.zip_cons_cons, List.countP_cons, beq_self_eq_true, if_pos,
          List.take_succ_cons, htail]
      · have h0 := countP_zip_zero ca cb s1.target s2.target he
          (fun s hs => hra s (by simp [hs])) (fun s hs => hrb s (by simp [hs]))
          hla.2 hlb.2
        simp [List.zip_cons_cons, List.countP_cons, beq_iff_eq, he, h0]

/-- C2: over the merged registry, tallying the pruned suffix chains produced
by `_connect` (center suffix as minus chain, target suffix as plus chain)
equals the full subtraction `tally(full chain of body1, full chain of
body2)`: pruning the shared prefix never changes the numeric result. -/
theorem pruningEquivalence (body1 body2 : Body) (fuel : Nat)
    (s1 s2 p1 p2 : List Segment) (t : ℝ)
    (h1 : chainOf (body1.segments ++ body2.segments) body1.code fuel = some s1)
    (h2 : chainOf (body1.segments ++ body2.segments) body2.code fuel = some s2)
    (hok : connect body1 body2 fuel = some (Except.ok (p1, p2))) :
    tally p1 p2 t = tally s1 s2 t := by
  simp only [connect, h1, h2] at hok
  cases s1 with
  | nil => simp at hok
  | cons a s1' =>
    cases s2 with
    | nil => simp at hok
    | cons b s2' =>
      simp only [List.head?_cons] at hok
      by_cases hcen : a.center ≠ b.center
      · rw [if_pos hcen] at hok
        simp at hok
      · rw [if_neg hcen] at hok
        simp only [Option.some_inj] at hok
        injection hok with hok
        injection hok with hp1 hp2
        subst hp1
        subst hp2
        set ca := a :: s1' with hca
        set cb := b :: s2' with hcb
        set i := (ca.zip cb).countP (fun p => p.1.target == p.2.target) with hi
        obtain ⟨r1, hl1⟩ := chainOf_linked h1
        obtain ⟨r2, hl2⟩ := chainOf_linked h2
        have htake : ca.take i = cb.take i :=
          zip_take_eq ca cb r1 r2 (chainOf_registered h1) (chainOf_registered h2) hl1 hl2
        have key : ∀ c : List Segment,
            (c.map fun s => s.compute t).sum
              = ((c.take i).map fun s => s.compute t).sum
                + ((c.drop i).map fun s => s.compute t).sum := by
          intro c
          conv_lhs => rw [← List.take_append_drop i c]
          rw [List.map_append, List.sum_append]
        rw [tally_eq, tally_eq, key ca, key cb, htake]
        abel

/-- C2 witness: bodies 399 and 301 over the registry `[segS1, segS2, segS3]`
share the prefix `[segS1]`; tallying the pruned pair equals tallying the
full chains. -/
theorem pruningEquivalence_witness :
    chainOf (([segS1, segS2, segS3] : List Segment) ++ [segS1, segS2, segS3]) 399 3
      = some [segS1, segS2] ∧
    chainOf (([segS1, segS2, segS3] : List Segment) ++ [segS1, segS2, segS3]) 301 3
      = some [segS1, segS3] ∧
    connect ⟨[segS1, segS2, segS3], 399⟩ ⟨[segS1, segS2, segS3], 301⟩ 3
      = some (Except.ok ([segS2], [segS3])) ∧
    tally [segS2] [segS3] 7 = tally [segS1, segS2] [segS1, segS3] 7 :=
  ⟨rfl, rfl, rfl,
    pruningEquivalence ⟨[segS1, segS2, segS3], 399⟩ ⟨[segS1, segS2, segS3], 301⟩ 3
      [segS1, segS2] [segS1, segS3] [segS2] [segS3] 7 rfl rfl rfl⟩

/-- C4 (amended): chain resolution, whenever it terminates at all, does so
within `|segments|` lookup steps: re-running it with fuel equal to the
registry size reproduces the same chain, whose length is at most
`|segments|`.  A cyclic segment set instead makes the resolver loop forever
(`resolutionDiverges`); no `MalformedSegmentGraph` error is raised, because
the code has no cycle detection. -/
theorem chainResolutionBound (segs : List Segment) (code : Int) :
    (∃ c, chainOf segs code segs.length = some c ∧ c.length ≤ segs.length) ∨
    resolutionDiverges segs code := by
  by_cases h : ∃ fuel c, chainOf segs code fuel = some c
  · obtain ⟨fuel, c, hc⟩ := h
    left
    obtain ⟨l, hl, rfl⟩ : ∃ l, centerWalk segs code fuel = some l ∧ l.reverse = c := by
      unfold chainOf at hc
      obtain ⟨l, hl, hrev⟩ := Option.map_eq_some'.mp hc
      exact ⟨l, hl, hrev⟩
    have hlen := centerWalk_length_le hl
    refine ⟨l.reverse, ?_, by simpa using hlen⟩
    unfold chainOf
    rw [centerWalk_mono hl hlen]
    rfl
  · right
    intro fuel
    cases hc : chainOf segs code fuel with
    | none => rfl
    | some c => exact absurd ⟨fuel, c, hc⟩ h

/-- C4 counterexample: in the two-segment cycle 1 → 2 → 1 the resolver never
produces a chain at any lookup bound — the `while` loop of `_center` runs
forever instead of raising a `MalformedSegmentGraph` error. -/
theorem cycleLoopsForever : resolutionDiverges [cycA, cycB] 1 := by
  have key : ∀ f, centerWalk [cycA, cycB] 1 f = none ∧ centerWalk [cycA, cycB] 2 f = none := by
    intro f
    induction f with
    | zero => exact ⟨rfl, rfl⟩
    | succ f ih =>
      have h1 : lookupSeg [cycA, cycB] 1 = some cycA := rfl
      have h2 : lookupSeg [cycA, cycB] 2 = some cycB := rfl
      have hca : cycA.center = 2 := rfl
      have hcb : cycB.center = 1 := rfl
      constructor
      · simp only [centerWalk, h1, hca, ih.2, Option.map_none']
      · simp only [centerWalk, h2, hcb, ih.1, Option.map_none']
  intro fuel
  simp [chainOf, (key fuel).1]

/-- C9 (amended): an unresolvable identifier does not raise: the walk
silently stops at the first identifier with no segment, `Body.at` returns
the tally of the truncated chain, and for a fully unknown identifier the
chain is empty and the result is the zero position and velocity.  No
`UnknownBody` error exists in the code. -/
theorem unknownBodySilentResult (b : Body) (jd : ℝ) (fuel : Nat) (c : List Segment)
    (h : chainOf b.segments b.code fuel = some c) :
    bodyAt b jd fuel = some ⟨(tally [] c jd).1, (tally [] c jd).2, jd⟩ ∧
    (lookupSeg b.segments b.code = none →
      c = [] ∧ bodyAt b jd fuel = some ⟨0, 0, jd⟩) := by
  constructor
  · simp [bodyAt, h]
  · intro hnone
    have hwalk : centerWalk b.segments b.code fuel = some [] :=
      centerWalk_none_lookup hnone fuel
    have hnil : chainOf b.segments b.code fuel = some [] := by
      simp [chainOf, hwalk]
    rw [h] at hnil
    have hc : c = [] := Option.some_inj.mp hnil
    subst hc
    refine ⟨rfl, ?_⟩
    simp [bodyAt, h, tally]

/-- C9 witness: instantiating the amended theorem at the unknown code 42
over the registry `[segS1]`. -/
theorem unknownBodySilentResult_witness :
    chainOf [segS1] 42 1 = some [] ∧
    (bodyAt ⟨[segS1], 42⟩ 5 1 = some ⟨(tally [] [] 5).1, (tally [] [] 5).2, 5⟩ ∧
      (lookupSeg [segS1] 42 = none →
        ([] : List Segment) = [] ∧ bodyAt ⟨[segS1], 42⟩ 5 1 = some ⟨0, 0, 5⟩)) :=
  ⟨rfl, unknownBodySilentResult ⟨[segS1], 42⟩ 5 1 [] rfl⟩

/-- C9 counterexample: code 42 is not resolvable over `[segS1]` (its walk
neither reaches the root 0 nor finds a segment), yet `Body.at` surfaces no
`UnknownBody` error: it returns a zero-vector barycentric result. -/
theorem unknownBodyReturnsZero :
    lookupSeg [segS1] 42 = none ∧ (42 : Int) ≠ 0 ∧
    bodyAt ⟨[segS1], 42⟩ 5 1 = some ⟨0, 0, 5⟩ :=
  ⟨rfl, by decide, rfl⟩

/-- C5 (amended): when both resolved chains are nonempty, `observe` raises
the no-common-center `ValueError` exactly when the two rootmost segments'
centers are not both the barycenter 0, and otherwise returns the `Solution`
carrying both full chains; an empty chain instead raises `IndexError` (see
the counterexample). -/
theorem observeRootCheck (self other : Body) (fuel : Nat) (c0 t0 : Segment)
    (cc tc : List Segment)
    (hc : chainOf (self.segments ++ other.segments) self.code fuel = some (c0 :: cc))
    (ht : chainOf (self.segments ++ other.segments) other.code fuel = some (t0 :: tc)) :
    observe self other fuel
      = some (if c0.center = 0 ∧ t0.center = 0 then
          Except.ok ⟨self.code, other.code, c0 :: cc, t0 :: tc⟩
        else Except.error PyErr.noCommonCenter) := by
  have hiff : (c0.center = t0.center ∧ t0.center = 0) ↔ (c0.center = 0 ∧ t0.center = 0) :=
    ⟨fun h => ⟨h.1.trans h.2, h.2⟩, fun h => ⟨h.1.trans h.2.symm, h.2⟩⟩
  simp only [observe, hc, ht, List.head?_cons, hiff]

/-- C5 witness: body 399 observing body 3 over the scenario registry: both
chains are nonempty and root at 0, so a `Solution` is returned. -/
theorem observeRootCheck_witness :
    chainOf ([segS1, segS2] ++ [segS1, segS2]) 399 4 = some (segS1 :: [segS2]) ∧
    chainOf ([segS1, segS2] ++ [segS1, segS2]) 3 4 = some (segS1 :: []) ∧
    observe ⟨[segS1, segS2], 399⟩ ⟨[segS1, segS2], 3⟩ 4
      = some (if segS1.center = 0 ∧ segS1.center = 0 then
          Except.ok ⟨399, 3, segS1 :: [segS2], segS1 :: []⟩
        else Except.error PyErr.noCommonCenter) :=
  ⟨rfl, rfl, observeRootCheck ⟨[segS1, segS2], 399⟩ ⟨[segS1, segS2], 3⟩ 4
    segS1 segS1 [segS2] [] rfl rfl⟩

/-- C5 counterexample: the barycenter body (code 0) observing body 3: both
walks terminate at the root 0 (the barycenter's own chain is empty), so the
claim demands a `Solution`, but `center_chain[0]` raises `IndexError`. -/
theorem observeEmptyChainIndexError :
    chainOf ([segS1] ++ [segS1]) 0 2 = some [] ∧
    chainOf ([segS1] ++ [segS1]) 3 2 = some [segS1] ∧
    segS1.center = 0 ∧
    observe ⟨[segS1], 0⟩ ⟨[segS1], 3⟩ 2 = some (Except.error PyErr.indexError) :=
  ⟨rfl, rfl, rfl, rfl⟩

theorem length_of_mk (x y z : ℝ) :
    length_of (x, y, z) = Real.sqrt (x ^ 2 + y ^ 2 + z ^ 2) := rfl

theorem solutionLoop_zero (tchain : List Segment) (cpos : Vec3) (jd : ℝ)
    (tpv : Vec3 × Vec3) (d lt0 : ℝ) :
    solutionLoop tchain cpos jd tpv d lt0 0 = none := rfl

theorem solutionLoop_succ (tchain : List Segment) (cpos : Vec3) (jd : ℝ)
    (tpv : Vec3 × Vec3) (d lt0 : ℝ) (n : Nat) :
    solutionLoop tchain cpos jd tpv d lt0 (n + 1)
      = if -(1 / 10 ^ 12 : ℝ) < d / C_AUDAY - lt0 ∧ d / C_AUDAY - lt0 < (1 / 10 ^ 12 : ℝ) then
          some (tpv, d / C_AUDAY)
        else
          solutionLoop tchain cpos jd (tally [] tchain (jd - d / C_AUDAY))
            (length_of ((tally [] tchain (jd - d / C_AUDAY)).1 - cpos)) (d / C_AUDAY) n := rfl

theorem ltState_zero (tchain : List Segment) (cpos : Vec3) (jd : ℝ) :
    ltState tchain cpos jd 0
      = (tally [] tchain jd, length_of ((tally [] tchain jd).1 - cpos), 0) := rfl

theorem ltState_succ (tchain : List Segment) (cpos : Vec3) (jd : ℝ) (k : Nat) :
    ltState tchain cpos jd (k + 1)
      = (tally [] tchain (jd - (ltState tchain cpos jd k).2.1 / C_AUDAY),
          length_of ((tally [] tchain (jd - (ltState tchain cpos jd k).2.1 / C_AUDAY)).1 - cpos),
          (ltState tchain cpos jd k).2.1 / C_AUDAY) := rfl

theorem solutionLoop_none_iff (tchain : List Segment) (cpos : Vec3) (jd : ℝ) :
    ∀ (n k : Nat),
      solutionLoop tchain cpos jd (ltState tchain cpos jd k).1
          (ltState tchain cpos jd k).2.1 (ltState tchain cpos jd k).2.2 n = none
        ↔ ∀ j, j < n → ¬ ltAccept tchain cpos jd (k + j) := by
  intro n
  induction n with
  | zero =>
    intro k
    simp [solutionLoop_zero]
  | succ n ih =>
    intro k
    rw [solutionLoop_succ]
    by_cases hacc : ltAccept tchain cpos jd k
    · have hcond : -(1 / 10 ^ 12 : ℝ) < (ltState tchain cpos jd k).2.1 / C_AUDAY
          - (ltState tchain cpos jd k).2.2
          ∧ (ltState tchain cpos jd k).2.1 / C_AUDAY
            - (ltState tchain cpos jd k).2.2 < (1 / 10 ^ 12 : ℝ) := hacc
      rw [if_pos hcond]
      exact iff_of_false (by simp) fun hall => hall 0 (by omega) (by simpa using hacc)
    · have hcond : ¬(-(1 / 10 ^ 12 : ℝ) < (ltState tchain cpos jd k).2.1 / C_AUDAY
          - (ltState tchain cpos jd k).2.2
          ∧ (ltState tchain cpos jd k).2.1 / C_AUDAY
            - (ltState tchain cpos jd k).2.2 < (1 / 10 ^ 12 : ℝ)) := hacc
      rw [if_neg hcond]
      have hnext := ih (k + 1)
      rw [ltState_succ] at hnext
      rw [hnext]
      constructor
      · intro hmid j hj
        cases j with
        | zero => simpa using hacc
        | succ j' =>
          have := hmid j' (by omega)
          simpa [show k + 1 + j' = k + (j' + 1) by omega] using this
      · intro hall j hj
        have := hall (j + 1) (by omega)
        simpa [show k + (j + 1) = k + 1 + j by omega] using this

/-- C6: `Solution.at` raises the light-time divergence error (returns no
result) precisely when each of the 10 loop passes fails the convergence
test `|lighttime - lighttime0| < 1e-12`: the bound is exactly 10 passes —
an iteration never satisfying the test diverges after those 10 passes, not
fewer and not more, and an unconverged estimate is never returned. -/
theorem lightTimeDivergenceIff (s : Solution) (jd : ℝ) :
    solutionAt s jd = none ↔
      ∀ k, k < 10 → ¬ ltAccept s.target_chain (tally [] s.center_chain jd).1 jd k := by
  have h0 := solutionLoop_none_iff s.target_chain (tally [] s.center_chain jd).1 jd 10 0
  rw [ltState_zero] at h0
  simp only [zero_add] at h0
  unfold solutionAt
  rw [Option.map_eq_none']
  exact h0

theorem tally_stationary {c : List Segment} (h : Stationary c) (t₁ t₂ : ℝ) :
    tally [] c t₁ = tally [] c t₂ := by
  simp only [tally_eq, List.map_nil, List.sum_nil, sub_zero]
  exact congrArg List.sum (List.map_congr_left fun s hs => h s hs t₁ t₂)

theorem solutionLoop_stationary_two (tchain : List Segment) (cpos : Vec3) (jd : ℝ)
    (tpv : Vec3 × Vec3) (d : ℝ)
    (htt : tally [] tchain (jd - d / C_AUDAY) = tpv)
    (hd : length_of (tpv.1 - cpos) = d)
    (hbig : (1 / 10 ^ 12 : ℝ) ≤ d / C_AUDAY) (n : Nat) :
    solutionLoop tchain cpos jd tpv d 0 (n + 2) = some (tpv, d / C_AUDAY) := by
  rw [show n + 2 = (n + 1) + 1 by omega, solutionLoop_succ]
  rw [if_neg ?hneg]
  case hneg =>
    rintro ⟨-, hlt⟩
    rw [sub_zero] at hlt
    linarith
  rw [htt, hd, solutionLoop_succ]
  rw [if_pos ⟨by rw [sub_self]; norm_num, by rw [sub_self]; norm_num⟩]

/-- C7 (amended): for a `Solution` whose chains are stationary, with initial
separation `d` satisfying `d / C_AUDAY ≥ 1e-12`, the light-time iteration
rejects the first estimate, accepts on the second pass (exactly one
iteration beyond the first estimate), and `Solution.at` returns
`light_time = d / C_AUDAY` exactly.  (For `0 < d / C_AUDAY < 1e-12` the
first pass already accepts — see the counterexample.) -/
theorem stationaryConvergence (s : Solution) (jd : ℝ)
    (hstat : Stationary (s.center_chain ++ s.target_chain))
    (htol : (1 / 10 ^ 12 : ℝ) ≤ initialDistance s jd / C_AUDAY) :
    ¬ ltAccept s.target_chain (tally [] s.center_chain jd).1 jd 0 ∧
    ltAccept s.target_chain (tally [] s.center_chain jd).1 jd 1 ∧
    solutionAt s jd
      = some ⟨if s.center = 0 then PosKind.barycentric else PosKind.astrometric,
          (tally [] s.target_chain jd).1 - (tally [] s.center_chain jd).1,
          (tally [] s.target_chain jd).2 - (tally [] s.center_chain jd).2,
          jd, initialDistance s jd / C_AUDAY,
          (tally [] s.center_chain jd).1, (tally [] s.center_chain jd).2⟩ := by
  have hstatT : Stationary s.target_chain := fun x hx =>
    hstat x (List.mem_append.mpr (Or.inr hx))
  have htt : ∀ t : ℝ, tally [] s.target_chain t = tally [] s.target_chain jd :=
    fun t => tally_stationary hstatT t jd
  have hd0 : ltDelta s.target_chain (tally [] s.center_chain jd).1 jd 0
      = initialDistance s jd / C_AUDAY := by
    simp only [ltDelta, ltState_zero, initialDistance, sub_zero]
  have hd1 : ltDelta s.target_chain (tally [] s.center_chain jd).1 jd 1 = 0 := by
    simp only [ltDelta, ltState_succ, ltState_zero]
    rw [htt]
    exact sub_self _
  refine ⟨?_, ?_, ?_⟩
  · rintro ⟨-, hlt⟩
    rw [hd0] at hlt
    linarith
  · constructor
    · rw [hd1]; norm_num
    · rw [hd1]; norm_num
  · show (solutionLoop s.target_chain (tally [] s.center_chain jd).1 jd
        (tally [] s.target_chain jd) (initialDistance s jd) 0 10).map
          (fun r =>
            (⟨if s.center = 0 then PosKind.barycentric else PosKind.astrometric,
              r.1.1 - (tally [] s.center_chain jd).1, r.1.2 - (tally [] s.center_chain jd).2,
              jd, r.2, (tally [] s.center_chain jd).1,
              (tally [] s.center_chain jd).2⟩ : SolRes)) = _
    rw [show (10 : Nat) = 8 + 2 by omega]
    rw [solutionLoop_stationary_two s.target_chain (tally [] s.center_chain jd).1 jd
      (tally [] s.target_chain jd) (initialDistance s jd) (htt _) rfl htol 8]
    rfl

/-- C7 witness: the stationary solution `statSol` at separation 5 (a 3-4-0
offset): the theorem's hypotheses hold and it converges on the second pass
with light-time `5 / C_AUDAY`. -/
theorem stationaryConvergence_witness :
    Stationary (statSol.center_chain ++ statSol.target_chain) ∧
    (1 / 10 ^ 12 : ℝ) ≤ initialDistance statSol 0 / C_AUDAY ∧
    (¬ ltAccept statSol.target_chain (tally [] statSol.center_chain 0).1 0 0 ∧
      ltAccept statSol.target_chain (tally [] statSol.center_chain 0).1 0 1 ∧
      solutionAt statSol 0
        = some ⟨if statSol.center = 0 then PosKind.barycentric else PosKind.astrometric,
            (tally [] statSol.target_chain 0).1 - (tally [] statSol.center_chain 0).1,
            (tally [] statSol.target_chain 0).2 - (tally [] statSol.center_chain 0).2,
            0, initialDistance statSol 0 / C_AUDAY,
            (tally [] statSol.center_chain 0).1, (tally [] statSol.center_chain 0).2⟩) := by
  have h1 : Stationary (statSol.center_chain ++ statSol.target_chain) := by
    intro x hx t₁ t₂
    simp only [statSol, statSeg, List.nil_append, List.mem_singleton] at hx
    subst hx
    rfl
  have hdist : initialDistance statSol 0 = 5 := by
    simp only [initialDistance, statSol, statSeg, tally, List.foldl_nil, List.foldl_cons,
      zero_add, Prod.fst_zero, sub_zero]
    rw [length_of_mk, show (3 : ℝ) ^ 2 + (4 : ℝ) ^ 2 + (0 : ℝ) ^ 2 = 5 ^ 2 by norm_num]
    exact Real.sqrt_sq (by norm_num)
  have h2 : (1 / 10 ^ 12 : ℝ) ≤ initialDistance statSol 0 / C_AUDAY := by
    rw [hdist]
    rw [div_le_div_iff₀ (by norm_num) (by unfold C_AUDAY; norm_num)]
    unfold C_AUDAY
    norm_num
  exact ⟨h1, h2, stationaryConvergence statSol 0 h1 h2⟩

/-- C7 counterexample: the stationary solution `tinySol` at separation
`1e-10 > 0`: `d / C_AUDAY < 1e-12`, so the very first pass already
satisfies the convergence test — convergence takes zero iterations beyond
the first estimate, not exactly one as the claim states for every `d > 0`. -/
theorem stationaryTinySeparationFirstPass :
    Stationary (tinySol.center_chain ++ tinySol.target_chain) ∧
    0 < initialDistance tinySol 0 ∧
    ltAccept tinySol.target_chain (tally [] tinySol.center_chain 0).1 0 0 := by
  have hdist : initialDistance tinySol 0 = 1 / 10 ^ 10 := by
    simp only [initialDistance, tinySol, tinySeg, tally, List.foldl_nil, List.foldl_cons,
      zero_add, Prod.fst_zero, sub_zero]
    rw [length_of_mk,
      show (1 / 10 ^ 10 : ℝ) ^ 2 + (0 : ℝ) ^ 2 + (0 : ℝ) ^ 2 = (1 / 10 ^ 10) ^ 2 by norm_num]
    exact Real.sqrt_sq (by norm_num)
  have hd0 : ltDelta tinySol.target_chain (tally [] tinySol.center_chain 0).1 0 0
      = initialDistance tinySol 0 / C_AUDAY := by
    simp only [ltDelta, ltState_zero, initialDistance, sub_zero]
  refine ⟨?_, ?_, ?_⟩
  · intro x hx t₁ t₂
    simp only [tinySol, tinySeg, List.nil_append, List.mem_singleton] at hx
    subst hx
    rfl
  · rw [hdist]; norm_num
  · constructor
    · rw [hd0, hdist]
      have : (0 : ℝ) < (1 / 10 ^ 10 : ℝ) / C_AUDAY := by
        apply div_pos (by norm_num)
        unfold C_AUDAY
        norm_num
      linarith
    · rw [hd0, hdist]
      rw [div_lt_iff₀ (by unfold C_AUDAY; norm_num)]
      unfold C_AUDAY
      norm_num

/-- C8: `Solution.at` touches the center chain only through its single
nominal-time tally: two solutions with the same center code, the same
target chain, and equal center-chain tallies at the nominal time produce
identical results, and the observer position/velocity attached to any
returned result is exactly that nominal-time center tally.  Only the
target chain is re-evaluated at the delayed times. -/
theorem centerTalliedOnce (s₁ s₂ : Solution) (jd : ℝ)
    (hcode : s₁.center = s₂.center)
    (htc : s₁.target_chain = s₂.target_chain)
    (hcv : tally [] s₁.center_chain jd = tally [] s₂.center_chain jd) :
    solutionAt s₁ jd = solutionAt s₂ jd ∧
    ∀ r, solutionAt s₁ jd = some r →
      r.observerPos = (tally [] s₁.center_chain jd).1 ∧
      r.observerVel = (tally [] s₁.center_chain jd).2 := by
  constructor
  · unfold solutionAt
    rw [hcode, htc, hcv]
  · intro r hr
    unfold solutionAt at hr
    obtain ⟨x, hx, rfl⟩ := Option.map_eq_some'.mp hr
    exact ⟨rfl, rfl⟩

/-- C8 witness: `solConst` and `solDrift` have center chains that differ as
functions but tally equally at time 0, so `Solution.at` cannot tell them
apart there. -/
theorem centerTalliedOnce_witness :
    solConst.center = solDrift.center ∧
    solConst.target_chain = solDrift.target_chain ∧
    tally [] solConst.center_chain 0 = tally [] solDrift.center_chain 0 ∧
    (solutionAt solConst 0 = solutionAt solDrift 0 ∧
      ∀ r, solutionAt solConst 0 = some r →
        r.observerPos = (tally [] solConst.center_chain 0).1 ∧
        r.observerVel = (tally [] solConst.center_chain 0).2) := by
  have h1 : solConst.center = solDrift.center := rfl
  have h2 : solConst.target_chain = solDrift.target_chain := rfl
  have h3 : tally [] solConst.center_chain 0 = tally [] solDrift.center_chain 0 := by
    simp only [solConst, solDrift, cSegConst, cSegDrift, tally, List.foldl_nil,
      List.foldl_cons]
    norm_num
  exact ⟨h1, h2, h3, centerTalliedOnce solConst solDrift 0 h1 h2 h3⟩

/-- C1: with segments S1 = (0, 3, t ↦ ((t,0,0),(1,0,0))) and
S2 = (3, 399, t ↦ ((0,1,0),(0,0,0))), `Body(399).at(5)` returns the
barycentric position (5,1,0) and velocity (1,0,0). -/
theorem concreteScenarioAt :
    bodyAt ⟨[segS1, segS2], 399⟩ 5 2 = some ⟨(5, 1, 0), (1, 0, 0), 5⟩ := by
  have hc : chainOf [segS1, segS2] 399 2 = some [segS1, segS2] := rfl
  simp only [bodyAt, hc, Option.map_some']
  simp only [tally, List.foldl_nil, List.foldl_cons, segS1, segS2]
  norm_num [Prod.ext_iff]

end Ephemerislib
